import Mathlib

/-!
# Verification of the noodle_grid core

A shallow embedding of the core of the `noodle_grid` power-grid
visualization server, together with proofs about its behaviour.

Conventions of the embedding:

* Machine floats (`f32`/`f64`) are idealized as exact rationals `ℚ`.
  All arithmetic the embedded code performs (lerp, clamp, dot products,
  plane intersections) is rational, so every definition is executable.
* Distance comparisons in the probe resolver
  (`src/probe.rs::get_closest_line`) are modelled by *squared* distances:
  `x ↦ x^2` is strictly monotone on nonnegative reals, so every
  comparison `dist a < dist b` in the source has the same truth value as
  `sdist a < sdist b` in the model, and the chosen index/point are
  identical.
* A zero-length segment makes the source compute `t = 0.0 / 0.0 = NaN`;
  every subsequent comparison on `NaN` is false, so such a segment can
  never become the current minimum.  The model makes this explicit with
  a guard `dot ab ab = 0` instead of relying on rational division by
  zero (which Lean defines as `0` and would change behaviour).
* Instance records are 16 packed little-endian `f32`s = 64 bytes.  Byte
  counts are therefore modelled as `64 *` (number of records appended).
-/

namespace NoodleGrid

/-- 2D rational vector, modelling `glm::Vec2` with `f32` idealized as `ℚ`. -/
structure V2 where
  x : ℚ
  y : ℚ
deriving DecidableEq, Repr

/-- 3D rational vector, modelling `glm::Vec3`. -/
structure V3 where
  x : ℚ
  y : ℚ
  z : ℚ
deriving DecidableEq, Repr

/-- 4D rational vector, modelling `glm::Vec4`. -/
structure V4 where
  x : ℚ
  y : ℚ
  z : ℚ
  w : ℚ
deriving DecidableEq, Repr

def V2.add (a b : V2) : V2 := ⟨a.x + b.x, a.y + b.y⟩

def V2.sub (a b : V2) : V2 := ⟨a.x - b.x, a.y - b.y⟩

def V2.smul (t : ℚ) (a : V2) : V2 := ⟨t * a.x, t * a.y⟩

/-- Dot product on `V2`, modelling `nalgebra`'s `dot`. -/
def V2.dot (a b : V2) : ℚ := a.x * b.x + a.y * b.y

/-- Squared Euclidean distance; the monotone stand-in for
`nalgebra::distance` (see the module comment). -/
def V2.sdist (a b : V2) : ℚ := (a.x - b.x) ^ 2 + (a.y - b.y) ^ 2

def V3.add (a b : V3) : V3 := ⟨a.x + b.x, a.y + b.y, a.z + b.z⟩

def V3.sub (a b : V3) : V3 := ⟨a.x - b.x, a.y - b.y, a.z - b.z⟩

def V3.smul (t : ℚ) (a : V3) : V3 := ⟨t * a.x, t * a.y, t * a.z⟩

/-- Dot product on `V3`. -/
def V3.dot (a b : V3) : ℚ := a.x * b.x + a.y * b.y + a.z * b.z

/-- `Vec3::xz()` — the horizontal components used by the probe resolver. -/
def V3.xz (a : V3) : V2 := ⟨a.x, a.z⟩

/-!
## `src/utility.rs` — lerp helpers
-/

/-- `LerpTrait::lerp` from `src/utility.rs`:
`y0 + (x - x0) * ((y1 - y0) / (x1 - x0))`. -/
def lerp (x x0 x1 y0 y1 : ℚ) : ℚ := y0 + (x - x0) * ((y1 - y0) / (x1 - x0))

/-- `num_traits::clamp(x, lo, hi)` (for `lo ≤ hi`):
`if x < lo then lo else if x > hi then hi else x`. -/
def clampq (x lo hi : ℚ) : ℚ := if x < lo then lo else if x > hi then hi else x

/-- `LerpTrait::clamped_lerp` from `src/utility.rs`. -/
def clamped_lerp (x x0 x1 y0 y1 : ℚ) : ℚ := clampq (lerp x x0 x1 y0 y1) y0 y1

/-!
## `src/domain.rs` — the Domain mapper
-/

/-- `VoltageSafety` from `src/domain.rs`. -/
inductive VoltageSafety where
  | Safe
  | Low
  | High
deriving DecidableEq, Repr

/-- The `Domain` struct from `src/domain.rs`: data bounds, normalized
visual bounds and the calibration constants. -/
structure Domain where
  data_x : ℚ × ℚ
  data_y : ℚ × ℚ
  x_bounds : ℚ × ℚ
  y_bounds : ℚ × ℚ
  volt_height_min : ℚ
  volt_height_max : ℚ
  volt_min : ℚ
  volt_max : ℚ
  tube_min : ℚ
  tube_max : ℚ
  watt_bounds : ℚ
deriving DecidableEq, Repr

/-- `Domain::default()` from `src/domain.rs`. -/
def Domain.default : Domain where
  data_x := (0, 0)
  data_y := (0, 0)
  x_bounds := (0, 0)
  y_bounds := (0, 0)
  volt_height_min := 0
  volt_height_max := 1.5
  volt_min := 0.9
  volt_max := 1.1
  tube_min := 0.001
  tube_max := 0.03
  watt_bounds := 1700

/-- `Domain::voltage_to_height` from `src/domain.rs`. -/
def Domain.voltage_to_height (d : Domain) (v : ℚ) : ℚ :=
  clamped_lerp |v| d.volt_min d.volt_max d.volt_height_min d.volt_height_max

/-- `Domain::line_load_to_height` from `src/domain.rs`. -/
def Domain.line_load_to_height (d : Domain) (v : ℚ) : ℚ :=
  clamped_lerp |v| 0 2 d.volt_height_min d.volt_height_max

/-- `Domain::voltage_safety` from `src/domain.rs`: fixed `0.95`/`1.05`
thresholds, no field of `self` is read. -/
def Domain.voltage_safety (_d : Domain) (v : ℚ) : VoltageSafety :=
  if v < 0.95 then VoltageSafety.Low
  else if v > 1.05 then VoltageSafety.High
  else VoltageSafety.Safe

/-- `Domain::real_power_to_width` from `src/domain.rs`. -/
def Domain.real_power_to_width (d : Domain) (v : ℚ) : ℚ :=
  clamped_lerp |v| 0 d.watt_bounds d.tube_min d.tube_max

/-- `Domain::reactive_power_to_width` from `src/domain.rs`. -/
def Domain.reactive_power_to_width (d : Domain) (v : ℚ) : ℚ :=
  clamped_lerp |v| 0 d.watt_bounds d.tube_min d.tube_max

/-- `Domain::lerp_x` from `src/domain.rs`. -/
def Domain.lerp_x (d : Domain) (v : ℚ) : ℚ :=
  lerp v d.x_bounds.1 d.x_bounds.2 (-1) 1

/-- `Domain::lerp_y` from `src/domain.rs` (output range flipped). -/
def Domain.lerp_y (d : Domain) (v : ℚ) : ℚ :=
  lerp v d.y_bounds.1 d.y_bounds.2 1 (-1)

/-!
## `src/probe.rs` — the probe attachment resolver

`Probe::get_closest_line` iterates the current timestep's line list,
maps each raw endpoint pair through the domain, projects the probe's
`(x, z)` position onto each segment, and tracks the minimum distance
together with the line index and the (unclamped) projected point `c`.
-/

/-- The raw 2D endpoint pair of a line (`EndedPosition` in
`src/dots.rs`). -/
structure EndedPosition where
  sx : ℚ
  sy : ℚ
  ex : ℚ
  ey : ℚ
deriving DecidableEq, Repr

/-- A world-space 2D segment: the `(a, b)` pair the resolver loop
computes for each line. -/
abbrev Seg := V2 × V2

/-- The domain mapping of a line's endpoints performed at the start of
each loop iteration of `get_closest_line`. -/
def lineSeg (d : Domain) (l : EndedPosition) : Seg :=
  (⟨d.lerp_x l.sx, d.lerp_y l.sy⟩, ⟨d.lerp_x l.ex, d.lerp_y l.ey⟩)

/-- A degenerate segment: `dot(ab, ab) = 0` (i.e. `a = b`).  In the
source `t = 0.0/0.0` is then `NaN` and the segment can never win the
minimum; the embedding names the condition explicitly. -/
def Seg.degen (s : Seg) : Prop := (s.2.sub s.1).dot (s.2.sub s.1) = 0

instance (s : Seg) : Decidable s.degen := by unfold Seg.degen; infer_instance

/-- The projection parameter `t = dot(ap, ab) / dot(ab, ab)` of the
resolver loop. -/
def Seg.tparam (p : V2) (s : Seg) : ℚ :=
  (p.sub s.1).dot (s.2.sub s.1) / (s.2.sub s.1).dot (s.2.sub s.1)

/-- The projected point `c = a + t * ab` the resolver stores as the
candidate closest point (not clamped to the segment). -/
def Seg.proj (p : V2) (s : Seg) : V2 :=
  s.1.add (V2.smul (Seg.tparam p s) (s.2.sub s.1))

/-- The per-segment distance of the resolver loop (squared; see the
module comment): endpoint `a` when `t < 0`, endpoint `b` when `t > 1`,
the projected point otherwise. -/
def Seg.sdistTo (p : V2) (s : Seg) : ℚ :=
  if Seg.tparam p s < 0 then p.sdist s.1
  else if Seg.tparam p s > 1 then p.sdist s.2
  else p.sdist (Seg.proj p s)

/-- One iteration of the `get_closest_line` loop, acting on the
accumulator `(min_distance, index, closest_point)`.  `none` models the
initial `min_distance = ∞, index = usize::MAX` state; a degenerate
segment leaves the accumulator unchanged (`NaN` comparisons are always
false in the source). -/
def closestStep (p : V2) (acc : Option (ℚ × ℕ × V2)) (i : ℕ) (s : Seg) :
    Option (ℚ × ℕ × V2) :=
  if s.degen then acc
  else
    let dsq := Seg.sdistTo p s
    let c := Seg.proj p s
    match acc with
    | none => some (dsq, i, c)
    | some (m, j, q) => if dsq < m then some (dsq, i, c) else some (m, j, q)

/-- The `get_closest_line` loop over the (already domain-mapped)
segment list, carrying the running line index. -/
def closestAux (p : V2) : List Seg → ℕ → Option (ℚ × ℕ × V2) → Option (ℚ × ℕ × V2)
  | [], _, acc => acc
  | s :: rest, i, acc => closestAux p rest (i + 1) (closestStep p acc i s)

/-- `Probe::get_closest_line` from `src/probe.rs`: the probe's world
position is reduced to `(x, z)`, every line is mapped through the
domain, and the loop returns `none` exactly when the final index is
still `usize::MAX`. -/
def get_closest_line (d : Domain) (world_pos : V3) (lines : List EndedPosition) :
    Option (ℕ × V2) :=
  (closestAux world_pos.xz (lines.map (lineSeg d)) 0 none).map fun r => (r.2.1, r.2.2)

/-!
## `src/methods.rs` — playback time advance
-/

/-- One step of `advance_watcher` from `src/methods.rs`: truncated
`i32` remainder (Rust `%` is `Int.tmod`) followed by the wrapping
correction `if new_time < 0 { new_time += max_time_step }`. -/
def advance_time (time_step : ℕ) (time_step_direction : ℤ) (max_time_step : ℕ) : ℤ :=
  let new_time := Int.tmod ((time_step : ℤ) + time_step_direction) (max_time_step : ℤ)
  if new_time < 0 then new_time + (max_time_step : ℤ) else new_time

/-- A concrete domain whose `lerp_x` is the identity and whose `lerp_y`
is negation: data bounds and visual bounds both `[-1, 1]`. -/
def exDomain : Domain :=
  { Domain.default with
      data_x := (-1, 1), data_y := (-1, 1),
      x_bounds := (-1, 1), y_bounds := (-1, 1) }

/-- The line list of the C1 witness: one far-away segment and one
passing right next to the probe. -/
def exLines : List EndedPosition := [⟨10, 10, 10, 11⟩, ⟨0, -1, 0, 1⟩]

/-- A concrete domain with identity `lerp_x` and voltage calibration
`[0, 2] ↦ [0, 2]`, so `voltage_to_height` is `|v|` clamped: the hazard
plane heights are exactly `0.95` and `1.05`. -/
def hzDomain : Domain :=
  { exDomain with volt_min := 0, volt_max := 2, volt_height_min := 0, volt_height_max := 2 }

/-!
## `src/dots.rs` — per-timestep electrical records
-/

/-- A single 2D position (`Position` in `src/dots.rs`). -/
structure Position where
  sx : ℚ
  sy : ℚ
deriving DecidableEq, Repr

/-- A per-phase quantity (`Phased<f32>` in `src/dots.rs`). -/
structure Phased where
  a : ℚ
  b : ℚ
  c : ℚ
deriving DecidableEq, Repr

/-- A per-phase integer quantity (`Phased<i32>` in `src/dots.rs`). -/
structure PhasedInt where
  a : ℤ
  b : ℤ
  c : ℤ
deriving DecidableEq, Repr

/-- A per-phase quantity differing at start and end (`EndPhased`). -/
structure EndPhased where
  sa : ℚ
  sb : ℚ
  sc : ℚ
  ea : ℚ
  eb : ℚ
  ec : ℚ
deriving DecidableEq, Repr

/-- A timestep record of a line (`LineState` in `src/dots.rs`). -/
structure LineState where
  voltage : EndPhased
  real_power : EndPhased
  reactive_power : EndPhased
  loc : EndedPosition
  line_load : Phased
deriving DecidableEq, Repr

/-- A timestep record of a transformer (`TransformerState` in
`src/dots.rs`). -/
structure TransformerState where
  voltage : EndPhased
  tap : PhasedInt
  tap_changes : PhasedInt
  loc : Position
deriving DecidableEq, Repr

/-!
## `src/instance.rs` — instance buffer builder and hazard detector
-/

/-- `LineGetterResult` from `src/instance.rs`. -/
structure LineGetterResult where
  volt_start : ℚ
  volt_end : ℚ
  watt : ℚ
  vars : ℚ
  line_load : ℚ
deriving DecidableEq, Repr

/-- `TfGetterResult` from `src/instance.rs`. -/
structure TfGetterResult where
  volt_start : ℚ
  volt_end : ℚ
  tap : ℤ
  tap_change : ℤ
deriving DecidableEq, Repr

/-- `safety_to_saturation` from `src/instance.rs`. -/
def safety_to_saturation : VoltageSafety → ℚ
  | VoltageSafety.Safe => 0.5
  | VoltageSafety.Low => 0.2
  | VoltageSafety.High => 0.8

/-- The rational content of the 16-float (64-byte) instance record
built by `state_to_line`: center, texture, the (possibly flow-flipped)
direction vector `v`, and the two power-derived widths.  The rotation
quaternion and `v.magnitude()` stored in the serialized record are
irrational functions of `dir` (square roots) and carry no extra
information; every record occupies 64 bytes regardless. -/
structure InstData where
  center : V3
  texture : V4
  dir : V3
  watt_size : ℚ
  vars_size : ℚ
deriving DecidableEq, Repr

/-- The world-space endpoints `(p_a, p_b)` computed at the top of
`state_to_line`: height from voltage or line load depending on the
display mode, horizontal position through the domain, plus the phase
offset. -/
def lineEndpoints (getter : LineState → LineGetterResult) (d : Domain) (offset : V3)
    (use_line_load : Bool) (state : LineState) : V3 × V3 :=
  let r := getter state
  let height_a := if use_line_load then d.line_load_to_height r.line_load
    else d.voltage_to_height r.volt_start
  let height_b := if use_line_load then d.line_load_to_height r.line_load
    else d.voltage_to_height r.volt_end
  ((V3.mk (d.lerp_x state.loc.sx) height_a (d.lerp_y state.loc.sy)).add offset,
   (V3.mk (d.lerp_x state.loc.ex) height_b (d.lerp_y state.loc.ey)).add offset)

/-- `state_to_line` from `src/instance.rs`.  Returns the endpoint pair
(which the source always hands to the hazard callback, *before* any
skip decision) together with the instance record, `none` exactly when
`p_a.y < 0.000001 || p_b.y < 0.000001` (the sub-epsilon skip rule).
The `texture` closure mirrors the texture callback of the source; the
conductor builder's closure ignores the length argument, so the model
passes the getter result only. -/
def state_to_line (getter : LineState → LineGetterResult)
    (texture : LineGetterResult → V4) (d : Domain) (offset : V3)
    (use_line_load : Bool) (state : LineState) : (V3 × V3) × Option InstData :=
  let result := getter state
  let pab := lineEndpoints getter d offset use_line_load state
  let p_a := pab.1
  let p_b := pab.2
  let v0 := p_b.sub p_a
  let v := if 0 > result.watt then V3.smul (-1) v0 else v0
  let center := V3.smul (1 / 2) (p_a.add p_b)
  let watt_size := d.real_power_to_width result.watt
  let vars_size := d.reactive_power_to_width result.vars
  if p_a.y < 0.000001 ∨ p_b.y < 0.000001 then (pab, none)
  else (pab, some ⟨center, texture result, v, watt_size, vars_size⟩)

/-- The texture closure `recompute_lines` passes to `state_to_line`:
phase color band plus safety-derived saturation of the mean voltage. -/
def lineTexture (d : Domain) (color_band : ℚ) (st : LineGetterResult) : V4 :=
  ⟨color_band, safety_to_saturation (d.voltage_safety ((st.volt_start + st.volt_end) / 2)), 1, 1⟩

/-- Per-record contribution of `recompute_lines` to the line instance
buffer: one 64-byte record, or nothing when skipped. -/
def lineContribution (getter : LineState → LineGetterResult) (d : Domain) (offset : V3)
    (color_band : ℚ) (use_line_load : Bool) (state : LineState) : List InstData :=
  (state_to_line getter (lineTexture d color_band) d offset use_line_load state).2.toList

/-- `f32::EPSILON` = `2⁻²³`, the parallel-line guard of
`line_plane_intersection`. -/
def f32_epsilon : ℚ := 1 / 2 ^ 23

/-- `line_plane_intersection` from `src/instance.rs`: horizontal plane
at height `plane_h`, parametric intersection accepted for
`fac ∈ [0, 1)`. -/
def line_plane_intersection (a b : V3) (plane_h : ℚ) : Option V3 :=
  let plane_normal : V3 := ⟨0, 1, 0⟩
  let plane_point : V3 := ⟨0, plane_h, 0⟩
  let u := b.sub a
  let dt := plane_normal.dot u
  if |dt| < f32_epsilon then none
  else
    let w := a.sub plane_point
    let fac := -(plane_normal.dot w) / dt
    if 0 ≤ fac ∧ fac < 1 then some (a.add (V3.smul fac u)) else none

/-- `f32::round` as used through `glm::round`: round half away from
zero (Mathlib's `round` rounds half up, which differs at negative
halves). -/
def rustRound (q : ℚ) : ℤ := if 0 ≤ q then ⌊q + 1 / 2⌋ else -⌊-q + 1 / 2⌋

/-- `HazardCheck` from `src/instance.rs`: grid snap size, the two plane
heights, and the deduplicating set of `(cellX, cellZ, level)` triples
(the source uses a `HashSet<(i32, i32, i32)>`). -/
structure HazardCheck where
  snap : ℚ
  v_min_height : ℚ
  v_max_height : ℚ
  map_intersect : Finset (ℤ × ℤ × ℤ)
deriving DecidableEq

/-- `HazardCheck::new`: 20 cells over the 2-meter square, plane heights
from the fixed `0.95`/`1.05` thresholds. -/
def HazardCheck.new (d : Domain) : HazardCheck :=
  ⟨2 / 20, d.voltage_to_height 0.95, d.voltage_to_height 1.05, ∅⟩

/-- `self.map_intersect.insert(triple)` on the checker state. -/
def HazardCheck.insertCell (h : HazardCheck) (t : ℤ × ℤ × ℤ) : HazardCheck :=
  { h with map_intersect := insert t h.map_intersect }

/-- `HazardCheck::check`: snap each plane intersection to the grid and
insert `(x, z, 0)` for the lower plane, `(x, z, 1)` for the upper. -/
def HazardCheck.check (h : HazardCheck) (a b : V3) : HazardCheck :=
  let h1 :=
    match line_plane_intersection a b h.v_min_height with
    | some point =>
        h.insertCell (rustRound (point.x / h.snap), rustRound (point.z / h.snap), (0 : ℤ))
    | none => h
  match line_plane_intersection a b h1.v_max_height with
  | some point =>
      h1.insertCell (rustRound (point.x / h1.snap), rustRound (point.z / h1.snap), (1 : ℤ))
  | none => h1

/-- `glm::mix_scalar(x, y, a) = x + a * (y - x)`. -/
def mix_scalar (x y a : ℚ) : ℚ := x + a * (y - x)

/-- The box instance record `HazardCheck::create_matrices` emits for
one deduplicated cell. -/
def hazardMat (h : HazardCheck) (t : ℤ × ℤ × ℤ) : List ℚ :=
  [(t.1 : ℚ) * h.snap, mix_scalar h.v_min_height h.v_max_height (t.2.2 : ℚ),
    (t.2.1 : ℚ) * h.snap, 0,
    0, 0, 1, 1,
    0, 0, 0, 1,
    h.snap, 1, h.snap, 0]

/-- `HazardCheck::create_matrices`: one record per stored cell.  The
iteration order of the source's `HashSet` is unspecified, so the buffer
is modelled as a multiset of records. -/
def HazardCheck.create_matrices (h : HazardCheck) : Multiset (List ℚ) :=
  h.map_intersect.val.map (hazardMat h)

/-- The set of `(cellX, cellZ, level)` triples one segment contributes
in a single `HazardCheck::check` call, for snap size `snap` and plane
heights `vmin`/`vmax`. -/
def segTriples (snap vmin vmax : ℚ) (a b : V3) : Finset (ℤ × ℤ × ℤ) :=
  (match line_plane_intersection a b vmin with
    | some point => {(rustRound (point.x / snap), rustRound (point.z / snap), (0 : ℤ))}
    | none => ∅) ∪
  (match line_plane_intersection a b vmax with
    | some point => {(rustRound (point.x / snap), rustRound (point.z / snap), (1 : ℤ))}
    | none => ∅)

/-- The hazard checker after a full pass over a list of world-space
endpoint pairs (the fold `recompute_lines` performs through the
`state_to_line` callback). -/
def checkAll (h : HazardCheck) (segs : List (V3 × V3)) : HazardCheck :=
  segs.foldl (fun h ab => h.check ab.1 ab.2) h

/-- The hazard checker state at the end of one `recompute_lines` pass:
every record's endpoint pair is checked, skipped or not. -/
def recompute_lines_checker (src : List LineState) (getter : LineState → LineGetterResult)
    (d : Domain) (offset : V3) (use_line_load : Bool) : HazardCheck :=
  checkAll (HazardCheck.new d)
    (src.map fun st => (lineEndpoints getter d offset use_line_load st))

/-- `recompute_lines` from `src/instance.rs`: the per-record loop
appends the instance record unless skipped and always runs the hazard
check on `(p_a, p_b)`; the hazard buffer is emitted only when
`line_load` is false. -/
def recompute_lines (src : List LineState) (getter : LineState → LineGetterResult)
    (d : Domain) (offset : V3) (color_band : ℚ) (line_load : Bool) :
    List InstData × Multiset (List ℚ) :=
  (src.flatMap (lineContribution getter d offset color_band line_load),
   if line_load then 0
   else (recompute_lines_checker src getter d offset line_load).create_matrices)

/-- Per-record contribution of `recompute_tfs`: the transformer-bounds
tube and the thin baseline tube (two 64-byte records), or nothing when
the sub-epsilon rule skips the record.  All entries are rational (the
rotation is the identity quaternion), so the full records are kept. -/
def tfContribution (getter : TransformerState → TfGetterResult) (d : Domain) (offset : V3)
    (color_band : ℚ) (state : TransformerState) : List (List ℚ) :=
  let r := getter state
  let p_a := (V3.mk (d.lerp_x state.loc.sx) (d.voltage_to_height r.volt_start)
    (d.lerp_y state.loc.sy)).add offset
  let p_b := (V3.mk (d.lerp_x state.loc.sx) (d.voltage_to_height r.volt_end)
    (d.lerp_y state.loc.sy)).add offset
  let center := V3.smul (1 / 2) (p_a.add p_b)
  let height := |p_b.y - p_a.y|
  if p_a.y < 0.000001 ∨ p_b.y < 0.000001 then []
  else
    let texture : V2 := ⟨color_band, 0.6⟩
    let hx := d.volt_height_max - d.volt_height_min
    [[center.x, center.y, center.z, 0, texture.x, texture.y, 1, 1,
        0, 0, 0, 1, d.tube_max, height, d.tube_max, 0],
      [center.x, hx / 2, center.z, 0, texture.x, texture.y, 1, 1,
        0, 0, 0, 1, d.tube_min, hx, d.tube_min, 0]]

/-- `recompute_tfs` from `src/instance.rs` as the concatenation of
per-record contributions. -/
def recompute_tfs (src : List TransformerState) (getter : TransformerState → TfGetterResult)
    (d : Domain) (offset : V3) (color_band : ℚ) : List (List ℚ) :=
  src.flatMap (tfContribution getter d offset color_band)

/-- Byte count of a line instance buffer: 64 bytes per record. -/
def instBytes (l : List InstData) : ℕ := 64 * l.length

/-- Byte count of a buffer of serialized 16-float records. -/
def matBytes (l : List (List ℚ)) : ℕ := 64 * l.length

/-!
## `src/probe.rs` and `src/methods.rs` — probe state and handlers

Scene handles (`EntityReference` etc.) are opaque; they are modelled by
natural-number ids.  `entity_pos` mirrors the transform `move_entity`
patches onto the probe's scene entity.
-/

/-- `usize::MAX`, the initial `line_i` sentinel of a fresh probe. -/
def usizeMax : ℕ := 2 ^ 64 - 1

/-- The `Probe` struct from `src/probe.rs`. -/
structure Probe where
  entity : ℕ
  world_pos : V3
  dirty : Option V3
  handle : Option ℕ
  chart : Option ℕ
  chart_delete : Option ℕ
  line_i : ℕ
  entity_pos : V3
deriving DecidableEq, Repr

/-- `Probe::new` from `src/probe.rs`. -/
def Probe.new (entity : ℕ) : Probe :=
  ⟨entity, ⟨0, 0, 0⟩, none, none, none, none, usizeMax, ⟨0, 0, 0⟩⟩

/-- The probe-matched branch of `on_move` in `src/methods.rs`: the
requested position is stored, with its `y` forced to `0`, as the
pending (`dirty`) move — overwriting any previous pending move. -/
def probeMove (p : Probe) (position : V3) : Probe :=
  { p with dirty := some ⟨position.x, 0, position.z⟩ }

/-- `on_move` from `src/methods.rs` over the probe list: the first
probe whose entity matches receives the pending move (the source
`return`s inside the loop); without a match the handler falls through
to a generic scene-transform patch that touches no probe. -/
def on_move : List Probe → ℕ → V3 → List Probe
  | [], _, _ => []
  | p :: rest, target, position =>
    if p.entity = target then probeMove p position :: rest
    else p :: on_move rest target position

/-- `Probe::update` from `src/probe.rs`: adopt the pending position,
clear it, re-run the attachment resolver, seat the scene entity (at the
resolved closest point, or at the adopted position when no line
exists), and adopt the new line index.  A probe without a pending move
is returned unchanged; the pipeline only calls `update` on dirty
probes, where the source `unwrap`s. -/
def Probe.update (p : Probe) (d : Domain) (lines : List EndedPosition) : Probe :=
  match p.dirty with
  | none => p
  | some dp =>
    let p1 := { p with world_pos := dp, dirty := none }
    match get_closest_line d p1.world_pos lines with
    | none => { p1 with entity_pos := p1.world_pos }
    | some r =>
      let p2 := { p1 with entity_pos := ⟨r.2.x, 0, r.2.y⟩ }
      if p2.line_i = r.1 then p2 else { p2 with line_i := r.1 }

/-- Stage 1 of `update_probes` in `src/probe.rs` for one probe: clean
probes are skipped; a dirty probe is updated once and a chart request
keyed by its identity, carrying the resolved line index, is recorded. -/
def stage1 (d : Domain) (lines : List EndedPosition) (p : Probe) : Probe × Option (ℕ × ℕ) :=
  if p.dirty = none then (p, none)
  else
    let p' := p.update d lines
    (p', some (p.entity, p'.line_i))

/-- Stage 1 of `update_probes` over the whole probe collection (the
collection is taken out, updated element-wise, and put back). -/
def stage1_pass (d : Domain) (lines : List EndedPosition) (probes : List Probe) : List Probe :=
  probes.map fun p => (stage1 d lines p).1

/-- `Probe::check_click` from `src/probe.rs`: a click deletes this
probe when the clicked entity id equals the delete-button id (with the
`unwrap_or_default` fallback id `0` for probes without a button). -/
def checkClickDelete (p : Probe) (target : ℕ) : Bool :=
  target = p.chart_delete.getD 0

/-- `on_click` from `src/methods.rs`: retain the probes whose
`check_click` does not answer `Delete`. -/
def on_click (probes : List Probe) (target : ℕ) : List Probe :=
  probes.filter fun p => !(checkClickDelete p target)

/-- `make_probe` from `src/methods.rs` (probe-list effect): recycle the
oldest probe when 5 or more exist, then append the new one at the back
of the queue. -/
def make_probe (probes : List Probe) (newEntity : ℕ) : List Probe :=
  (if 5 ≤ probes.length then probes.tail else probes) ++ [Probe.new newEntity]

/-- The operations of the method surface that touch the probe
collection of `GridState`. -/
inductive GridOp where
  | makeProbe (newEntity : ℕ)
  | click (target : ℕ)
  | move (target : ℕ) (position : V3)
  | pass (d : Domain) (lines : List EndedPosition)

/-- Effect of one operation on the probe collection. -/
def applyOp (op : GridOp) (probes : List Probe) : List Probe :=
  match op with
  | GridOp.makeProbe e => make_probe probes e
  | GridOp.click t => on_click probes t
  | GridOp.move t pos => on_move probes t pos
  | GridOp.pass d lines => stage1_pass d lines probes

/-- A whole history of probe-touching operations, from the empty
startup collection onwards. -/
def runOps (ops : List GridOp) (probes : List Probe) : List Probe :=
  ops.foldl (fun ps op => applyOp op ps) probes

/-!
## `src/methods.rs` — playback timer control
-/

/-- The timer-control fragment of `GridState`: whether an
`active_timer` oneshot sender is held, the stored playback direction,
and event counters for the verification statements — `spawned` counts
`tokio::spawn(advance_timer ...)` calls, `stopped` counts stop signals
sent. -/
structure PlaybackState where
  active_timer : Bool
  time_step_direction : ℤ
  spawned : ℕ
  stopped : ℕ
deriving DecidableEq, Repr

/-- `check_launch_timer` from `src/methods.rs`: always store the
direction; a running timer is kept (nonzero direction) or stopped
(zero); with no timer running, a nonzero direction spawns exactly one
timer task and a zero direction does nothing. -/
def check_launch_timer (gs : PlaybackState) (timer_direction : ℤ) : PlaybackState :=
  let start_timer := timer_direction ≠ 0
  let gs1 := { gs with time_step_direction := timer_direction }
  if gs1.active_timer then
    if start_timer then gs1
    else { gs1 with active_timer := false, stopped := gs1.stopped + 1 }
  else if start_timer then { gs1 with active_timer := true, spawned := gs1.spawned + 1 }
  else gs1

/-- Number of timer tasks alive: spawned minus stopped. -/
def liveTimers (gs : PlaybackState) : ℤ := (gs.spawned : ℤ) - (gs.stopped : ℤ)

/-- The timer bookkeeping invariant: the live-task count is exactly the
`active_timer` flag. -/
def TimerInv (gs : PlaybackState) : Prop :=
  (gs.spawned : ℤ) = (gs.stopped : ℤ) + (if gs.active_timer then 1 else 0)

/-!
## Theorems
-/

/-- A non-degenerate segment always produces a `some` accumulator. -/
theorem closestStep_ne_none (p : V2) (acc : Option (ℚ × ℕ × V2)) (i : ℕ) (s : Seg)
    (hd : ¬s.degen) : closestStep p acc i s ≠ none := by
  unfold closestStep
  rw [if_neg hd]
  cases acc with
  | none => simp
  | some a =>
    obtain ⟨m, j, q⟩ := a
    dsimp only
    split_ifs <;> simp

/-- A degenerate segment never changes the accumulator (its `NaN`
distance fails every comparison in the source). -/
theorem closestStep_degen (p : V2) (acc : Option (ℚ × ℕ × V2)) (i : ℕ) (s : Seg)
    (hd : s.degen) : closestStep p acc i s = acc := by
  unfold closestStep
  rw [if_pos hd]

/-- On a non-degenerate segment the loop body either keeps the current
minimum (when the segment does not strictly beat it) or replaces it
with this segment's distance, index and projected point. -/
theorem closestStep_cases (p : V2) (acc : Option (ℚ × ℕ × V2)) (i : ℕ) (s : Seg)
    (hd : ¬s.degen) :
    (∃ m0 j0 c0, acc = some (m0, j0, c0) ∧ ¬(Seg.sdistTo p s < m0) ∧
      closestStep p acc i s = acc) ∨
    (closestStep p acc i s = some (Seg.sdistTo p s, i, Seg.proj p s) ∧
      ∀ m0 j0 c0, acc = some (m0, j0, c0) → Seg.sdistTo p s < m0) := by
  unfold closestStep
  rw [if_neg hd]
  cases acc with
  | none => exact Or.inr ⟨rfl, by simp⟩
  | some a =>
    obtain ⟨m0, j0, c0⟩ := a
    dsimp only
    by_cases hlt : Seg.sdistTo p s < m0
    · rw [if_pos hlt]
      refine Or.inr ⟨rfl, ?_⟩
      intro m1 j1 c1 h1
      simp only [Option.some.injEq, Prod.mk.injEq] at h1
      exact h1.1 ▸ hlt
    · rw [if_neg hlt]
      exact Or.inl ⟨m0, j0, c0, rfl, hlt, rfl⟩

/-- The resolver loop ends with `index == usize::MAX` (modelled `none`)
iff it started there and every remaining segment is degenerate. -/
theorem closestAux_eq_none_iff (p : V2) (L : List Seg) :
    ∀ (i0 : ℕ) (acc : Option (ℚ × ℕ × V2)),
      closestAux p L i0 acc = none ↔ acc = none ∧ ∀ s ∈ L, s.degen := by
  induction L with
  | nil => intro i0 acc; simp [closestAux]
  | cons s rest ih =>
    intro i0 acc
    simp only [closestAux, ih, List.mem_cons]
    by_cases hd : s.degen
    · rw [closestStep_degen p acc i0 s hd]
      constructor
      · rintro ⟨h1, h2⟩
        exact ⟨h1, fun x hx => hx.elim (fun e => e ▸ hd) (h2 x)⟩
      · rintro ⟨h1, h2⟩
        exact ⟨h1, fun x hx => h2 x (Or.inr hx)⟩
    · constructor
      · rintro ⟨h1, _⟩
        exact absurd h1 (closestStep_ne_none p acc i0 s hd)
      · rintro ⟨_, h2⟩
        exact absurd (h2 s (Or.inl rfl)) hd

/-- Soundness of the resolver loop: a `some` result either is the
untouched input accumulator, which then undercuts every non-degenerate
segment of the list, or originates at a position `k` of the list, where
it strictly beats the accumulator and every earlier non-degenerate
segment (first-wins tie-break) and weakly beats every later one. -/
theorem closestAux_some_spec (p : V2) (L : List Seg) :
    ∀ (i0 : ℕ) (acc : Option (ℚ × ℕ × V2)) (m : ℚ) (j : ℕ) (c : V2),
      closestAux p L i0 acc = some (m, j, c) →
      (acc = some (m, j, c) ∧
        ∀ k (hk : k < L.length), ¬(L.get ⟨k, hk⟩).degen →
          m ≤ Seg.sdistTo p (L.get ⟨k, hk⟩)) ∨
      (∃ (k : ℕ) (hk : k < L.length),
        ¬(L.get ⟨k, hk⟩).degen ∧
        j = i0 + k ∧
        m = Seg.sdistTo p (L.get ⟨k, hk⟩) ∧
        c = Seg.proj p (L.get ⟨k, hk⟩) ∧
        (∀ m0 j0 c0, acc = some (m0, j0, c0) → m < m0) ∧
        (∀ k' (hk' : k' < L.length), k' < k → ¬(L.get ⟨k', hk'⟩).degen →
          m < Seg.sdistTo p (L.get ⟨k', hk'⟩)) ∧
        (∀ k' (hk' : k' < L.length), k < k' → ¬(L.get ⟨k', hk'⟩).degen →
          m ≤ Seg.sdistTo p (L.get ⟨k', hk'⟩))) := by
  induction L with
  | nil =>
    intro i0 acc m j c h
    exact Or.inl ⟨h, fun k hk => absurd hk (by simp)⟩
  | cons s rest ih =>
    intro i0 acc m j c h
    have h' : closestAux p rest (i0 + 1) (closestStep p acc i0 s) = some (m, j, c) := h
    by_cases hd : s.degen
    · -- degenerate head: accumulator unchanged, shift indices by one
      rw [closestStep_degen p acc i0 s hd] at h'
      rcases ih (i0 + 1) acc m j c h' with ⟨hacc, hall⟩ |
        ⟨k, hk, hnd, hj, hm, hc, haccs, hearly, hlate⟩
      · refine Or.inl ⟨hacc, ?_⟩
        rintro (_ | k) hk2 hnd2
        · exact absurd hd hnd2
        · exact hall k (Nat.lt_of_succ_lt_succ hk2) hnd2
      · refine Or.inr ⟨k + 1, Nat.succ_lt_succ hk, hnd, by omega, hm, hc, haccs, ?_, ?_⟩
        · rintro (_ | k') hk' hlt hnd'
          · exact absurd hd hnd'
          · exact hearly k' (Nat.lt_of_succ_lt_succ hk') (by omega) hnd'
        · rintro (_ | k') hk' hlt hnd'
          · omega
          · exact hlate k' (Nat.lt_of_succ_lt_succ hk') (by omega) hnd'
    · -- non-degenerate head
      rcases closestStep_cases p acc i0 s hd with
        ⟨m0, j0, c0, hacc0, hge, heq⟩ | ⟨heq, hstrict⟩
      · -- the old accumulator survived the comparison with the head
        rw [heq] at h'
        rcases ih (i0 + 1) acc m j c h' with ⟨hacc, hall⟩ |
          ⟨k, hk, hnd, hj, hm, hc, haccs, hearly, hlate⟩
        · refine Or.inl ⟨hacc, ?_⟩
          rintro (_ | k) hk2 hnd2
          · have hmm : m = m0 := by
              rw [hacc0] at hacc
              simp only [Option.some.injEq, Prod.mk.injEq] at hacc
              exact hacc.1.symm
            exact hmm ▸ (not_lt.mp hge)
          · exact hall k (Nat.lt_of_succ_lt_succ hk2) hnd2
        · refine Or.inr ⟨k + 1, Nat.succ_lt_succ hk, hnd, by omega, hm, hc, haccs, ?_, ?_⟩
          · rintro (_ | k') hk' hlt hnd'
            · exact lt_of_lt_of_le (haccs m0 j0 c0 hacc0) (not_lt.mp hge)
            · exact hearly k' (Nat.lt_of_succ_lt_succ hk') (by omega) hnd'
          · rintro (_ | k') hk' hlt hnd'
            · omega
            · exact hlate k' (Nat.lt_of_succ_lt_succ hk') (by omega) hnd'
      · -- the head strictly beat the accumulator and became the minimum
        rw [heq] at h'
        rcases ih (i0 + 1) (some (Seg.sdistTo p s, i0, Seg.proj p s)) m j c h' with
          ⟨hacc, hall⟩ | ⟨k, hk, hnd, hj, hm, hc, haccs, hearly, hlate⟩
        · -- the head is the final minimum
          simp only [Option.some.injEq, Prod.mk.injEq] at hacc
          obtain ⟨hm1, hj1, hc1⟩ := hacc
          refine Or.inr ⟨0, Nat.succ_pos _, hd, by omega, hm1.symm, hc1.symm, ?_, ?_, ?_⟩
          · intro m1 j1 c1 ha1
            exact hm1 ▸ hstrict m1 j1 c1 ha1
          · intro k' hk' hlt hnd'
            omega
          · rintro (_ | k') hk' hlt hnd'
            · omega
            · exact hm1 ▸ hall k' (Nat.lt_of_succ_lt_succ hk') hnd'
        · -- some later segment beat the head as well
          refine Or.inr ⟨k + 1, Nat.succ_lt_succ hk, hnd, by omega, hm, hc, ?_, ?_, ?_⟩
          · intro m1 j1 c1 ha1
            exact lt_trans (haccs (Seg.sdistTo p s) i0 (Seg.proj p s) rfl)
              (hstrict m1 j1 c1 ha1)
          · rintro (_ | k') hk' hlt hnd'
            · exact haccs (Seg.sdistTo p s) i0 (Seg.proj p s) rfl
            · exact hearly k' (Nat.lt_of_succ_lt_succ hk') (by omega) hnd'
          · rintro (_ | k') hk' hlt hnd'
            · omega
            · exact hlate k' (Nat.lt_of_succ_lt_succ hk') (by omega) hnd'

/-- C1 (amended): `get_closest_line` returns `none` iff the mapped line
list contains no segment with distinct endpoints (in particular when the
list is empty); otherwise it returns the index of the segment minimizing
the point-to-segment distance (distance to endpoint `a` when `t < 0`,
to endpoint `b` when `t > 1`, to the projected point otherwise;
comparisons are by squared distance, which orders identically), the
first segment encountered winning ties (strictly smaller than every
earlier non-degenerate segment), together with the *unclamped projected
point* `c = a + t·(b - a)` of that segment — which coincides with the
closest point on the segment only when `0 ≤ t ≤ 1`. -/
theorem get_closest_line_spec (d : Domain) (world_pos : V3) (lines : List EndedPosition) :
    (get_closest_line d world_pos lines = none ↔
      ∀ s ∈ lines.map (lineSeg d), s.degen) ∧
    (∀ i c, get_closest_line d world_pos lines = some (i, c) →
      ∃ hk : i < (lines.map (lineSeg d)).length,
        ¬((lines.map (lineSeg d)).get ⟨i, hk⟩).degen ∧
        c = Seg.proj world_pos.xz ((lines.map (lineSeg d)).get ⟨i, hk⟩) ∧
        (∀ k (hk' : k < (lines.map (lineSeg d)).length),
          ¬((lines.map (lineSeg d)).get ⟨k, hk'⟩).degen →
          Seg.sdistTo world_pos.xz ((lines.map (lineSeg d)).get ⟨i, hk⟩) ≤
            Seg.sdistTo world_pos.xz ((lines.map (lineSeg d)).get ⟨k, hk'⟩)) ∧
        (∀ k (hk' : k < (lines.map (lineSeg d)).length), k < i →
          ¬((lines.map (lineSeg d)).get ⟨k, hk'⟩).degen →
          Seg.sdistTo world_pos.xz ((lines.map (lineSeg d)).get ⟨i, hk⟩) <
            Seg.sdistTo world_pos.xz ((lines.map (lineSeg d)).get ⟨k, hk'⟩))) := by
  constructor
  · unfold get_closest_line
    rw [Option.map_eq_none', closestAux_eq_none_iff]
    simp
  · intro i c hres
    unfold get_closest_line at hres
    rcases Option.map_eq_some'.mp hres with ⟨⟨m, j, q⟩, haux, hfq⟩
    simp only [Prod.mk.injEq] at hfq
    obtain ⟨hj, hq⟩ := hfq
    rw [hj, hq] at haux
    rcases closestAux_some_spec world_pos.xz (lines.map (lineSeg d)) 0 none m i c haux with
      ⟨habs, _⟩ | ⟨k, hk, hnd, hjk, hm, hc, _, hearly, hlate⟩
    · exact absurd habs (by simp)
    · have hki : k = i := by omega
      subst hki
      refine ⟨hk, hnd, hc, ?_, ?_⟩
      · intro k' hk' hnd'
        rcases lt_trichotomy k' k with hlt | hkeq | hgt
        · exact le_of_lt (lt_of_eq_of_lt hm.symm (hearly k' hk' hlt hnd'))
        · subst hkeq
          exact le_refl _
        · exact le_of_eq_of_le hm.symm (hlate k' hk' hgt hnd')
      · intro k' hk' hlt hnd'
        exact lt_of_eq_of_lt hm.symm (hearly k' hk' hlt hnd')

/-- C1 as stated is false on the code, twice over.  First, the resolver
returns `none` for the *nonempty* list holding one zero-length line
(the source computes `t = 0/0 = NaN` and the segment never beats the
infinite initial minimum).  Second, for a probe at `(2, 0)` and the
single segment from `(0,0)` to `(1,0)` the resolver returns the
unclamped projection `(2, 0)`, which is not the closest point on the
segment (no point `a + t·(b-a)` with `t ∈ [0,1]` equals it). -/
theorem get_closest_line_claim_counterexample :
    (get_closest_line exDomain ⟨5, 0, 5⟩ [⟨0, 0, 0, 0⟩] = none ∧
      ([⟨0, 0, 0, 0⟩] : List EndedPosition) ≠ []) ∧
    (get_closest_line exDomain ⟨2, 0, 0⟩ [⟨0, 0, 1, 0⟩] = some (0, ⟨2, 0⟩) ∧
      ∀ t : ℚ, 0 ≤ t → t ≤ 1 →
        (lineSeg exDomain ⟨0, 0, 1, 0⟩).1.add
          (V2.smul t ((lineSeg exDomain ⟨0, 0, 1, 0⟩).2.sub
            (lineSeg exDomain ⟨0, 0, 1, 0⟩).1)) ≠ (⟨2, 0⟩ : V2)) := by
  refine ⟨⟨?_, by simp⟩, ?_, ?_⟩
  · norm_num [get_closest_line, closestAux, closestStep, Seg.degen, Seg.tparam, Seg.proj,
      Seg.sdistTo, lineSeg, exDomain, Domain.default, Domain.lerp_x, Domain.lerp_y, lerp,
      V2.add, V2.sub, V2.smul, V2.dot, V2.sdist, V3.xz]
  · norm_num [get_closest_line, closestAux, closestStep, Seg.degen, Seg.tparam, Seg.proj,
      Seg.sdistTo, lineSeg, exDomain, Domain.default, Domain.lerp_x, Domain.lerp_y, lerp,
      V2.add, V2.sub, V2.smul, V2.dot, V2.sdist, V3.xz]
  · intro t h0 h1 heq
    have h : lineSeg exDomain ⟨0, 0, 1, 0⟩ = (⟨0, 0⟩, ⟨1, 0⟩) := by
      norm_num [lineSeg, exDomain, Domain.default, Domain.lerp_x, Domain.lerp_y, lerp]
    rw [h] at heq
    simp only [V2.add, V2.smul, V2.sub, V2.mk.injEq] at heq
    obtain ⟨h2, _⟩ := heq
    nlinarith

/-- Witness for the amended C1 theorem at a concrete input matching the
spec's own test: of two segments, one passing through the probe's
projection and one far away, the resolver picks the near one (index 1)
with the probe's projected point `(0, 0)`, and its distance is at most
the far segment's. -/
theorem get_closest_line_spec_witness :
    get_closest_line exDomain ⟨1/2, 0, 0⟩ exLines = some (1, ⟨0, 0⟩) ∧
    Seg.sdistTo (V3.mk (1/2) 0 0).xz
        ((exLines.map (lineSeg exDomain)).get ⟨1, by simp [exLines]⟩) ≤
      Seg.sdistTo (V3.mk (1/2) 0 0).xz
        ((exLines.map (lineSeg exDomain)).get ⟨0, by simp [exLines]⟩) := by
  have hres : get_closest_line exDomain ⟨1/2, 0, 0⟩ exLines = some (1, ⟨0, 0⟩) := by
    norm_num [get_closest_line, closestAux, closestStep, Seg.degen, Seg.tparam, Seg.proj,
      Seg.sdistTo, lineSeg, exLines, exDomain, Domain.default, Domain.lerp_x, Domain.lerp_y,
      lerp, V2.add, V2.sub, V2.smul, V2.dot, V2.sdist, V3.xz]
  have h := (get_closest_line_spec exDomain ⟨1/2, 0, 0⟩ exLines).2 1 ⟨0, 0⟩ hres
  obtain ⟨hk, hnd, hc, hmin, hfirst⟩ := h
  refine ⟨hres, hmin 0 (by simp [exLines]) ?_⟩
  norm_num [exLines, Seg.degen, lineSeg, exDomain, Domain.default, Domain.lerp_x,
    Domain.lerp_y, lerp, V2.sub, V2.dot]

/-- C6: `voltage_safety(v)` returns `Low` iff `v < 0.95`, `High` iff
`v > 1.05`, and `Safe` otherwise; both boundaries are inclusive of
`Safe` (`0.95 ↦ Safe`, `1.05 ↦ Safe`), and the thresholds are fixed
constants independent of the `Domain`'s calibration fields. -/
theorem voltage_safety_spec (d : Domain) (v : ℚ) :
    (d.voltage_safety v = VoltageSafety.Low ↔ v < 0.95) ∧
    (d.voltage_safety v = VoltageSafety.High ↔ v > 1.05) ∧
    (d.voltage_safety v = VoltageSafety.Safe ↔ 0.95 ≤ v ∧ v ≤ 1.05) ∧
    d.voltage_safety 0.95 = VoltageSafety.Safe ∧
    d.voltage_safety 1.05 = VoltageSafety.Safe ∧
    (∀ d' : Domain, d.voltage_safety v = d'.voltage_safety v) := by
  unfold Domain.voltage_safety
  refine ⟨?_, ?_, ?_, by norm_num, by norm_num, fun _ => rfl⟩
  all_goals split_ifs with h1 h2 <;> simp_all <;> linarith

/-- C4: one `advance` step of the watcher computes
`(timeIndex + direction) mod maxTimeIndex` (mathematical modulus,
wrapping in both directions) and never leaves `[0, maxTimeIndex)`. -/
theorem advance_time_wraps (t : ℕ) (dir : ℤ) (m : ℕ) (hm : 0 < m) (ht : t < m)
    (hdir : dir = -1 ∨ dir = 0 ∨ dir = 1) :
    advance_time t dir m = ((t : ℤ) + dir) % (m : ℤ) ∧
    0 ≤ advance_time t dir m ∧ advance_time t dir m < (m : ℤ) := by
  have hmz : (0 : ℤ) < (m : ℤ) := by exact_mod_cast hm
  suffices h : advance_time t dir m = ((t : ℤ) + dir) % (m : ℤ) by
    refine ⟨h, ?_, ?_⟩ <;> rw [h]
    · exact Int.emod_nonneg _ (by omega)
    · exact Int.emod_lt_of_pos _ hmz
  unfold advance_time
  by_cases hx : 0 ≤ (t : ℤ) + dir
  · rw [Int.tmod_eq_emod hx (by positivity)]
    have h0 : ¬(((t : ℤ) + dir) % (m : ℤ) < 0) := by
      have := Int.emod_nonneg ((t : ℤ) + dir) (show (m : ℤ) ≠ 0 by omega)
      omega
    rw [if_neg h0]
  · have hx1 : (t : ℤ) + dir = -1 := by omega
    rw [hx1]
    have hneg : Int.tmod (-1) (m : ℤ) = -(Int.tmod 1 (m : ℤ)) := by
      rw [Int.tmod_def, Int.tmod_def, Int.neg_tdiv]; ring
    by_cases hm1 : m = 1
    · subst hm1
      simp [hneg, Int.tmod_one]
    · have hm2 : (2 : ℤ) ≤ (m : ℤ) := by omega
      have h1 : Int.tmod 1 (m : ℤ) = 1 := Int.tmod_eq_of_lt (by norm_num) (by omega)
      rw [hneg, h1]
      have hrhs : (-1 : ℤ) % (m : ℤ) = (m : ℤ) - 1 := by
        rw [show (-1 : ℤ) = ((m : ℤ) - 1) + (m : ℤ) * (-1) by ring,
          Int.add_mul_emod_self_left, Int.emod_eq_of_lt (by omega) (by omega)]
      rw [hrhs, if_pos (show (-1 : ℤ) < 0 by norm_num)]
      ring

/-- Witness for C4 at the spec's example: with `maxTimeIndex = 10`,
index `9` with direction `+1` advances to `0`, and index `0` with
direction `-1` advances to `9`. -/
theorem advance_time_wraps_witness :
    advance_time 9 1 10 = 0 ∧ advance_time 0 (-1) 10 = 9 := by
  have h1 := advance_time_wraps 9 1 10 (by norm_num) (by norm_num) (by norm_num)
  have h2 := advance_time_wraps 0 (-1) 10 (by norm_num) (by norm_num) (by norm_num)
  exact ⟨h1.1.trans (by decide), h2.1.trans (by decide)⟩

/-- C2: if either computed endpoint height (the world-space `y`, the
height plus the vertical component of the phase offset, which is `0`
at every call site) is below the `1e-6` epsilon, the instance is
dropped entirely — zero bytes are appended to the category's buffer
for that record — and the same rule holds for transformer records in
`recompute_tfs`. -/
theorem skip_rule_zero_bytes (d : Domain) (offset : V3) (color_band : ℚ) :
    (∀ (getter : LineState → LineGetterResult) (use_line_load : Bool) (st : LineState),
      (lineEndpoints getter d offset use_line_load st).1.y < 0.000001 ∨
        (lineEndpoints getter d offset use_line_load st).2.y < 0.000001 →
      lineContribution getter d offset color_band use_line_load st = [] ∧
      instBytes (lineContribution getter d offset color_band use_line_load st) = 0) ∧
    (∀ (tfgetter : TransformerState → TfGetterResult) (tf : TransformerState),
      ((V3.mk (d.lerp_x tf.loc.sx) (d.voltage_to_height (tfgetter tf).volt_start)
          (d.lerp_y tf.loc.sy)).add offset).y < 0.000001 ∨
        ((V3.mk (d.lerp_x tf.loc.sx) (d.voltage_to_height (tfgetter tf).volt_end)
          (d.lerp_y tf.loc.sy)).add offset).y < 0.000001 →
      tfContribution tfgetter d offset color_band tf = [] ∧
      matBytes (tfContribution tfgetter d offset color_band tf) = 0) := by
  constructor
  · intro getter ull st h
    have he : lineContribution getter d offset color_band ull st = [] := by
      unfold lineContribution state_to_line
      simp only []
      rw [if_pos h]
      rfl
    exact ⟨he, by rw [instBytes, he]; rfl⟩

  · intro tfgetter tf h
    have he : tfContribution tfgetter d offset color_band tf = [] := by
      unfold tfContribution
      simp only []
      rw [if_pos h]
    exact ⟨he, by rw [matBytes, he]; rfl⟩

/-- Witness for C2: under the default calibration a phase-A voltage of
`0.9` maps to height `0 < 1e-6`, so the line record and the transformer
record below each append zero bytes. -/
theorem skip_rule_zero_bytes_witness :
    lineContribution (fun s => ⟨s.voltage.sa, s.voltage.ea, 0, 0, 0⟩) exDomain ⟨0, 0, 0⟩ 0 false
      ⟨⟨0.9, 1, 1, 1.1, 1, 1⟩, ⟨0, 0, 0, 0, 0, 0⟩, ⟨0, 0, 0, 0, 0, 0⟩, ⟨0, 0, 0, 0⟩, ⟨0, 0, 0⟩⟩
      = [] ∧
    tfContribution (fun s => ⟨s.voltage.sa, s.voltage.ea, 0, 0⟩) exDomain ⟨0, 0, 0⟩ 0
      ⟨⟨0.9, 1, 1, 1.1, 1, 1⟩, ⟨0, 0, 0⟩, ⟨0, 0, 0⟩, ⟨0, 0⟩⟩ = [] := by
  have h := skip_rule_zero_bytes exDomain ⟨0, 0, 0⟩ 0
  constructor
  · exact (h.1 (fun s => ⟨s.voltage.sa, s.voltage.ea, 0, 0, 0⟩) false
      ⟨⟨0.9, 1, 1, 1.1, 1, 1⟩, ⟨0, 0, 0, 0, 0, 0⟩, ⟨0, 0, 0, 0, 0, 0⟩, ⟨0, 0, 0, 0⟩, ⟨0, 0, 0⟩⟩
      (by norm_num [lineEndpoints, exDomain, Domain.default, Domain.voltage_to_height,
        clamped_lerp, clampq, lerp, V3.add, abs_of_nonneg])).1
  · exact (h.2 (fun s => ⟨s.voltage.sa, s.voltage.ea, 0, 0⟩)
      ⟨⟨0.9, 1, 1, 1.1, 1, 1⟩, ⟨0, 0, 0⟩, ⟨0, 0, 0⟩, ⟨0, 0⟩⟩
      (by norm_num [exDomain, Domain.default, Domain.voltage_to_height,
        clamped_lerp, clampq, lerp, V3.add, abs_of_nonneg])).1

/-- `HazardCheck::check` never changes the snap size or the plane
heights. -/
theorem check_fields (h : HazardCheck) (a b : V3) :
    (h.check a b).snap = h.snap ∧ (h.check a b).v_min_height = h.v_min_height ∧
      (h.check a b).v_max_height = h.v_max_height := by
  unfold HazardCheck.check
  cases hlo : line_plane_intersection a b h.v_min_height <;>
    simp only [hlo, HazardCheck.insertCell] <;>
    cases hhi : line_plane_intersection a b h.v_max_height <;>
    simp [hhi, HazardCheck.insertCell]

/-- Membership after one `check` call: the old set plus the (at most
two) triples this segment contributes. -/
theorem check_mem (h : HazardCheck) (a b : V3) (t : ℤ × ℤ × ℤ) :
    t ∈ (h.check a b).map_intersect ↔
      t ∈ h.map_intersect ∨ t ∈ segTriples h.snap h.v_min_height h.v_max_height a b := by
  unfold HazardCheck.check segTriples
  cases hlo : line_plane_intersection a b h.v_min_height <;>
    simp only [hlo, HazardCheck.insertCell] <;>
    cases hhi : line_plane_intersection a b h.v_max_height <;>
    simp [hhi, HazardCheck.insertCell, Finset.mem_insert, Finset.mem_union] <;>
    tauto

/-- A full pass over a segment list preserves snap and plane heights. -/
theorem checkAll_fields (segs : List (V3 × V3)) :
    ∀ h : HazardCheck, (checkAll h segs).snap = h.snap ∧
      (checkAll h segs).v_min_height = h.v_min_height ∧
      (checkAll h segs).v_max_height = h.v_max_height := by
  induction segs with
  | nil => intro h; exact ⟨rfl, rfl, rfl⟩
  | cons ab rest ih =>
    intro h
    have h1 := check_fields h ab.1 ab.2
    have h2 := ih (h.check ab.1 ab.2)
    exact ⟨h2.1.trans h1.1, h2.2.1.trans h1.2.1, h2.2.2.trans h1.2.2⟩

/-- Membership after a full pass: a triple is recorded iff some segment
of the list contributes it (or it was already present). -/
theorem checkAll_mem (segs : List (V3 × V3)) :
    ∀ (h : HazardCheck) (t : ℤ × ℤ × ℤ),
      t ∈ (checkAll h segs).map_intersect ↔
        t ∈ h.map_intersect ∨
          ∃ ab ∈ segs, t ∈ segTriples h.snap h.v_min_height h.v_max_height ab.1 ab.2 := by
  induction segs with
  | nil => intro h t; simp [checkAll]
  | cons ab rest ih =>
    intro h t
    have hstep : checkAll h (ab :: rest) = checkAll (h.check ab.1 ab.2) rest := rfl
    rw [hstep, ih (h.check ab.1 ab.2) t]
    have hf := check_fields h ab.1 ab.2
    rw [hf.1, hf.2.1, hf.2.2, check_mem]
    simp only [List.mem_cons]
    constructor
    · rintro ((hin | hseg) | ⟨ab', hab', hseg'⟩)
      · exact Or.inl hin
      · exact Or.inr ⟨ab, Or.inl rfl, hseg⟩
      · exact Or.inr ⟨ab', Or.inr hab', hseg'⟩
    · rintro (hin | ⟨ab', hab' | hab', hseg'⟩)
      · exact Or.inl (Or.inl hin)
      · exact Or.inl (Or.inr (hab' ▸ hseg'))
      · exact Or.inr ⟨ab', hab', hseg'⟩

/-- C3: in one `recompute_lines` pass, each unique
`(cellX, cellZ, planeLevel)` triple yields exactly one hazard box
instance: the recorded set contains a triple iff some processed segment
crosses the corresponding plane in that cell (so two conductors
producing the same triple are deduplicated), the emitted buffer has one
record per recorded triple, each triple is stored exactly once, and a
lower-plane triple and an upper-plane triple in the same cell remain
two distinct instances. -/
theorem hazard_cell_dedup (d : Domain) (segs : List (V3 × V3)) :
    (∀ t, t ∈ (checkAll (HazardCheck.new d) segs).map_intersect ↔
      ∃ ab ∈ segs, t ∈ segTriples (2 / 20) (d.voltage_to_height 0.95)
        (d.voltage_to_height 1.05) ab.1 ab.2) ∧
    (checkAll (HazardCheck.new d) segs).create_matrices.card =
      (checkAll (HazardCheck.new d) segs).map_intersect.card ∧
    (∀ t ∈ (checkAll (HazardCheck.new d) segs).map_intersect,
      (checkAll (HazardCheck.new d) segs).map_intersect.val.count t = 1) ∧
    (∀ x z : ℤ, ((x, z, 0) : ℤ × ℤ × ℤ) ∈ (checkAll (HazardCheck.new d) segs).map_intersect →
      ((x, z, 1) : ℤ × ℤ × ℤ) ∈ (checkAll (HazardCheck.new d) segs).map_intersect →
      2 ≤ (checkAll (HazardCheck.new d) segs).create_matrices.card) := by
  have hcard : (checkAll (HazardCheck.new d) segs).create_matrices.card =
      (checkAll (HazardCheck.new d) segs).map_intersect.card := by
    unfold HazardCheck.create_matrices
    rw [Multiset.card_map]
    rfl
  refine ⟨?_, hcard, ?_, ?_⟩
  · intro t
    rw [checkAll_mem segs (HazardCheck.new d) t]
    simp [HazardCheck.new]
  · intro t ht
    exact Multiset.count_eq_one_of_mem (checkAll (HazardCheck.new d) segs).map_intersect.nodup ht
  · intro x z h0 h1
    rw [hcard]
    have : 1 < (checkAll (HazardCheck.new d) segs).map_intersect.card :=
      Finset.one_lt_card.mpr ⟨_, h0, _, h1, by simp⟩
    omega

/-- C9: the hazard-plane check runs on a line's world-space endpoints
before the sub-epsilon skip test, so a record that appends nothing to
the instance buffer still contributes its crossing cells to the hazard
buffer: every triple its endpoints produce is in the final checker set,
and the corresponding box record is in the emitted hazard buffer. -/
theorem hazard_checked_before_skip (src : List LineState)
    (getter : LineState → LineGetterResult) (d : Domain) (offset : V3) (color_band : ℚ)
    (st : LineState) (hmem : st ∈ src)
    (_hskip : lineContribution getter d offset color_band false st = []) :
    ∀ t ∈ segTriples (2 / 20) (d.voltage_to_height 0.95) (d.voltage_to_height 1.05)
        (lineEndpoints getter d offset false st).1 (lineEndpoints getter d offset false st).2,
      t ∈ (recompute_lines_checker src getter d offset false).map_intersect ∧
      hazardMat (recompute_lines_checker src getter d offset false) t ∈
        (recompute_lines src getter d offset color_band false).2 := by
  intro t ht
  have hin : t ∈ (recompute_lines_checker src getter d offset false).map_intersect := by
    unfold recompute_lines_checker
    rw [checkAll_mem]
    refine Or.inr ⟨lineEndpoints getter d offset false st, ?_, ?_⟩
    · exact List.mem_map.mpr ⟨st, hmem, rfl⟩
    · simpa [HazardCheck.new] using ht
  refine ⟨hin, ?_⟩
  show hazardMat _ t ∈ (if false = true then 0
    else (recompute_lines_checker src getter d offset false).create_matrices)
  simp only [if_neg (by simp : ¬(false = true))]
  unfold HazardCheck.create_matrices
  exact Multiset.mem_map.mpr ⟨t, hin, rfl⟩

/-- Witness for C3: one conductor crossing the lower plane and one
crossing the upper plane in the same grid cell yield two separate
hazard instances (the two plane levels never merge). -/
theorem hazard_cell_dedup_witness :
    2 ≤ (checkAll (HazardCheck.new hzDomain)
      [(⟨0, 9/10, 0⟩, ⟨0, 1, 0⟩), (⟨0, 1, 0⟩, ⟨0, 11/10, 0⟩)]).create_matrices.card := by
  have h := hazard_cell_dedup hzDomain
    [(⟨0, 9/10, 0⟩, ⟨0, 1, 0⟩), (⟨0, 1, 0⟩, ⟨0, 11/10, 0⟩)]
  have h0 : ((0, 0, 0) : ℤ × ℤ × ℤ) ∈ (checkAll (HazardCheck.new hzDomain)
      [(⟨0, 9/10, 0⟩, ⟨0, 1, 0⟩), (⟨0, 1, 0⟩, ⟨0, 11/10, 0⟩)]).map_intersect := by
    refine (h.1 (0, 0, 0)).mpr ⟨(⟨0, 9/10, 0⟩, ⟨0, 1, 0⟩), by simp, ?_⟩
    norm_num [segTriples, line_plane_intersection, f32_epsilon, rustRound, hzDomain, exDomain,
      Domain.default, Domain.voltage_to_height, clamped_lerp, clampq, lerp, abs_of_nonneg,
      V3.sub, V3.dot, V3.add, V3.smul]
  have h1 : ((0, 0, 1) : ℤ × ℤ × ℤ) ∈ (checkAll (HazardCheck.new hzDomain)
      [(⟨0, 9/10, 0⟩, ⟨0, 1, 0⟩), (⟨0, 1, 0⟩, ⟨0, 11/10, 0⟩)]).map_intersect := by
    refine (h.1 (0, 0, 1)).mpr ⟨(⟨0, 1, 0⟩, ⟨0, 11/10, 0⟩), by simp, ?_⟩
    norm_num [segTriples, line_plane_intersection, f32_epsilon, rustRound, hzDomain, exDomain,
      Domain.default, Domain.voltage_to_height, clamped_lerp, clampq, lerp, abs_of_nonneg,
      V3.sub, V3.dot, V3.add, V3.smul]
  exact h.2.2.2 0 0 h0 h1

/-- Witness for C9: a line whose start voltage maps to height `0`
(skipped, zero instance bytes) but whose end voltage maps to height `2`
still registers its lower-plane crossing cell `(0, 0, 0)` and the
corresponding box record in the hazard buffer. -/
theorem hazard_checked_before_skip_witness :
    ((0, 0, 0) : ℤ × ℤ × ℤ) ∈ (recompute_lines_checker
      [⟨⟨0, 1, 1, 2, 1, 1⟩, ⟨0, 0, 0, 0, 0, 0⟩, ⟨0, 0, 0, 0, 0, 0⟩, ⟨0, 0, 0, 0⟩, ⟨0, 0, 0⟩⟩]
      (fun s => ⟨s.voltage.sa, s.voltage.ea, 0, 0, 0⟩) hzDomain ⟨0, 0, 0⟩ false).map_intersect ∧
    hazardMat (recompute_lines_checker
      [⟨⟨0, 1, 1, 2, 1, 1⟩, ⟨0, 0, 0, 0, 0, 0⟩, ⟨0, 0, 0, 0, 0, 0⟩, ⟨0, 0, 0, 0⟩, ⟨0, 0, 0⟩⟩]
      (fun s => ⟨s.voltage.sa, s.voltage.ea, 0, 0, 0⟩) hzDomain ⟨0, 0, 0⟩ false) (0, 0, 0) ∈
      (recompute_lines
        [⟨⟨0, 1, 1, 2, 1, 1⟩, ⟨0, 0, 0, 0, 0, 0⟩, ⟨0, 0, 0, 0, 0, 0⟩, ⟨0, 0, 0, 0⟩, ⟨0, 0, 0⟩⟩]
        (fun s => ⟨s.voltage.sa, s.voltage.ea, 0, 0, 0⟩) hzDomain ⟨0, 0, 0⟩ 0 false).2 := by
  have h := hazard_checked_before_skip
    [⟨⟨0, 1, 1, 2, 1, 1⟩, ⟨0, 0, 0, 0, 0, 0⟩, ⟨0, 0, 0, 0, 0, 0⟩, ⟨0, 0, 0, 0⟩, ⟨0, 0, 0⟩⟩]
    (fun s => ⟨s.voltage.sa, s.voltage.ea, 0, 0, 0⟩) hzDomain ⟨0, 0, 0⟩ 0
    ⟨⟨0, 1, 1, 2, 1, 1⟩, ⟨0, 0, 0, 0, 0, 0⟩, ⟨0, 0, 0, 0, 0, 0⟩, ⟨0, 0, 0, 0⟩, ⟨0, 0, 0⟩⟩
    (by simp)
    (by norm_num [lineContribution, state_to_line, lineEndpoints, hzDomain, exDomain,
      Domain.default, Domain.voltage_to_height, Domain.lerp_x, Domain.lerp_y, clamped_lerp,
      clampq, lerp, abs_of_nonneg, V3.add])
    (0, 0, 0)
    (by norm_num [segTriples, line_plane_intersection, f32_epsilon, rustRound, hzDomain,
      exDomain, Domain.default, Domain.voltage_to_height, Domain.lerp_x, Domain.lerp_y,
      clamped_lerp, clampq, lerp, abs_of_nonneg, lineEndpoints, V3.sub, V3.dot, V3.add,
      V3.smul])
  exact h

/-- `on_move` never changes the number of probes. -/
theorem on_move_length (probes : List Probe) (target : ℕ) (pos : V3) :
    (on_move probes target pos).length = probes.length := by
  induction probes with
  | nil => rfl
  | cons p rest ih =>
    unfold on_move
    split_ifs <;> simp [ih]

/-- C5: a pending move overwrites, never queues.  Two move requests
before a stage-1 pass coalesce into the latest one; the pass then
resolves exactly one attachment from the latest position only, so the
earlier position has no effect on the probe's resulting state (world
position, scene transform, attached-line index) or chart request —
both per probe and through the `on_move` handler on the collection. -/
theorem move_coalescing (p : Probe) (probes : List Probe) (target : ℕ) (pos1 pos2 : V3)
    (d : Domain) (lines : List EndedPosition) :
    probeMove (probeMove p pos1) pos2 = probeMove p pos2 ∧
    stage1 d lines (probeMove (probeMove p pos1) pos2) = stage1 d lines (probeMove p pos2) ∧
    on_move (on_move probes target pos1) target pos2 = on_move probes target pos2 := by
  refine ⟨rfl, rfl, ?_⟩
  induction probes with
  | nil => rfl
  | cons q rest ih =>
    by_cases hq : q.entity = target
    · simp only [on_move]
      simp only [if_pos hq]
      simp only [on_move]
      rw [if_pos (show (probeMove q pos1).entity = target from hq)]
      rfl
    · simp only [on_move]
      simp only [if_neg hq]
      simp only [on_move]
      simp only [if_neg hq]
      rw [ih]

/-- C10: a `SetPosition` resolving to a probe stores the pending move
with its `y` component forced to `0`, so the probe state resulting from
the move depends only on the `x` and `z` components of the request. -/
theorem on_move_zeroes_y (probes : List Probe) (target : ℕ) (pos pos' : V3)
    (hx : pos.x = pos'.x) (hz : pos.z = pos'.z) :
    (∀ p : Probe, (probeMove p pos).dirty = some ⟨pos.x, 0, pos.z⟩) ∧
    on_move probes target pos = on_move probes target pos' := by
  refine ⟨fun p => rfl, ?_⟩
  induction probes with
  | nil => rfl
  | cons q rest ih =>
    unfold on_move
    split_ifs with hq
    · unfold probeMove
      rw [hx, hz]
    · rw [ih]

/-- Witness for C10: requests `(1, 5, 2)` and `(1, -3, 2)` differ only
in `y` and produce the identical probe-collection update, storing the
pending move `(1, 0, 2)`. -/
theorem on_move_zeroes_y_witness :
    (probeMove (Probe.new 7) ⟨1, 5, 2⟩).dirty = some ⟨1, 0, 2⟩ ∧
    on_move [Probe.new 7] 7 ⟨1, 5, 2⟩ = on_move [Probe.new 7] 7 ⟨1, -3, 2⟩ := by
  have h := on_move_zeroes_y [Probe.new 7] 7 ⟨1, 5, 2⟩ ⟨1, -3, 2⟩ rfl rfl
  exact ⟨h.1 (Probe.new 7), h.2⟩

/-- One probe-touching operation keeps the collection within the cap. -/
theorem applyOp_length_le (op : GridOp) (probes : List Probe)
    (hlen : probes.length ≤ 5) : (applyOp op probes).length ≤ 5 := by
  cases op with
  | makeProbe e =>
    show (make_probe probes e).length ≤ 5
    unfold make_probe
    split_ifs with h5 <;> simp [List.length_append] <;> omega
  | click t =>
    calc (on_click probes t).length ≤ probes.length := List.length_filter_le _ _
      _ ≤ 5 := hlen
  | move t pos => rw [applyOp, on_move_length]; exact hlen
  | pass d lines =>
    show (stage1_pass d lines probes).length ≤ 5
    unfold stage1_pass
    rw [List.length_map]
    exact hlen

/-- C7: the probe collection never exceeds 5 probes: every
probe-touching operation preserves `length ≤ 5`, any history of
operations from the empty startup collection stays within the cap, and
creating a probe when 5 exist first evicts the front (oldest) probe
before appending the new one. -/
theorem probe_cap (op : GridOp) (probes : List Probe) (ops : List GridOp) (np : ℕ)
    (hlen : probes.length ≤ 5) :
    (applyOp op probes).length ≤ 5 ∧
    (runOps ops []).length ≤ 5 ∧
    (probes.length = 5 → make_probe probes np = probes.tail ++ [Probe.new np]) := by
  refine ⟨applyOp_length_le op probes hlen, ?_, ?_⟩
  · have hgen : ∀ (l : List GridOp) (ps : List Probe), ps.length ≤ 5 →
        (runOps l ps).length ≤ 5 := by
      intro l
      induction l with
      | nil => intro ps h; exact h
      | cons o rest ih =>
        intro ps h
        exact ih (applyOp o ps) (applyOp_length_le o ps h)
    exact hgen ops [] (by simp)
  · intro h5
    unfold make_probe
    rw [if_pos (by omega)]

/-- Witness for C7: with five probes present, creating a sixth keeps
the count at 5 and evicts the front of the queue. -/
theorem probe_cap_witness :
    (applyOp (GridOp.makeProbe 9)
      [Probe.new 1, Probe.new 2, Probe.new 3, Probe.new 4, Probe.new 5]).length ≤ 5 ∧
    make_probe [Probe.new 1, Probe.new 2, Probe.new 3, Probe.new 4, Probe.new 5] 9 =
      [Probe.new 2, Probe.new 3, Probe.new 4, Probe.new 5, Probe.new 9] := by
  have h := probe_cap (GridOp.makeProbe 9)
    [Probe.new 1, Probe.new 2, Probe.new 3, Probe.new 4, Probe.new 5] [] 9 (by simp)
  exact ⟨h.1, (h.2.2 (by simp)).trans rfl⟩

/-- C8: at most one playback timer is ever active.  `check_launch_timer`
preserves the single-timer invariant, keeps the live-task count at most
one, cancels the running timer on direction `0`, is a pure no-op (beyond
storing the direction) when a timer already runs and the direction is
nonzero — spawning no second timer — and spawns exactly one timer when
none runs and the direction is nonzero. -/
theorem timer_at_most_one (gs : PlaybackState) (dir : ℤ) (hinv : TimerInv gs) :
    TimerInv (check_launch_timer gs dir) ∧
    liveTimers (check_launch_timer gs dir) ≤ 1 ∧
    (check_launch_timer gs 0).active_timer = false ∧
    (gs.active_timer = true → dir ≠ 0 →
      check_launch_timer gs dir = { gs with time_step_direction := dir }) ∧
    (gs.active_timer = false → dir ≠ 0 →
      check_launch_timer gs dir =
        { gs with time_step_direction := dir, active_timer := true,
                  spawned := gs.spawned + 1 }) := by
  have hzero : (check_launch_timer gs 0).active_timer = false := by
    by_cases ha : gs.active_timer = true <;> simp [check_launch_timer, ha]
  have hbusy : gs.active_timer = true → dir ≠ 0 →
      check_launch_timer gs dir = { gs with time_step_direction := dir } := by
    intro ha hd
    simp [check_launch_timer, ha, hd]
  have hidle : gs.active_timer = false → dir ≠ 0 →
      check_launch_timer gs dir =
        { gs with time_step_direction := dir, active_timer := true,
                  spawned := gs.spawned + 1 } := by
    intro ha hd
    simp [check_launch_timer, ha, hd]
  have hinv' : TimerInv (check_launch_timer gs dir) := by
    unfold TimerInv at hinv ⊢
    by_cases ha : gs.active_timer = true <;> by_cases hd : dir = 0 <;>
      simp_all [check_launch_timer]
  refine ⟨hinv', ?_, hzero, hbusy, hidle⟩
  unfold TimerInv at hinv'
  unfold liveTimers
  split_ifs at hinv' <;> omega

/-- Witness for C8: from the startup state (no timer), `Play(+1)`
spawns one timer; a second `Play(+1)` only stores the direction; a
`Play(0)` then cancels it. -/
theorem timer_at_most_one_witness :
    check_launch_timer ⟨false, 0, 0, 0⟩ 1 = ⟨true, 1, 1, 0⟩ ∧
    check_launch_timer ⟨true, 1, 1, 0⟩ 1 = ⟨true, 1, 1, 0⟩ ∧
    (check_launch_timer ⟨true, 1, 1, 0⟩ 0).active_timer = false ∧
    liveTimers (check_launch_timer ⟨true, 1, 1, 0⟩ 1) ≤ 1 := by
  have h0 := timer_at_most_one ⟨false, 0, 0, 0⟩ 1 (by simp [TimerInv])
  have h1 := timer_at_most_one ⟨true, 1, 1, 0⟩ 1 (by simp [TimerInv])
  refine ⟨?_, ?_, (timer_at_most_one ⟨true, 1, 1, 0⟩ 0 (by simp [TimerInv])).2.2.1, h1.2.1⟩
  · exact (h0.2.2.2.2 rfl (by norm_num)).trans rfl
  · exact (h1.2.2.2.1 rfl (by norm_num)).trans rfl

end NoodleGrid
